import Mathlib

/-!
Verification development for the GRC supplier finder.

The program (src/main.py) is a spreadsheet-to-table normalizer
(`parse_pivot_rules`) followed by a module-level filter-and-aggregate
pipeline driven by five sidebar selections.  We embed the pipeline
shallowly: a spreadsheet cell is `Option String` (missing = `none`), a
raw sheet is a list of rows of cells, and the pandas DataFrame produced
by the normalizer is a list of rows tagged with their integer index
label.  Pandas exceptions (ValueError for the missing header, KeyError
for a missing column label) become an `Except Err` result.
-/

/-- A spreadsheet / DataFrame cell: `none` is pandas NaN. -/
abbrev Cell := Option String

/-- A raw sheet, as read with `header=None`: rows of cells. -/
abbrev Grid := List (List Cell)

/-- Errors raised by the pipeline: `ValueError` when no header row is
found, `KeyError k` when column label `k` is absent. -/
inductive Err where
  | headerNotFound : Err
  | keyError : String → Err
deriving DecidableEq, Repr

/-- A DataFrame: column labels (stripped header cells) plus rows, each
carrying its pandas index label. -/
structure Table where
  cols : List Cell
  rows : List (Nat × List Cell)
deriving DecidableEq, Repr

/-- ASCII lower-casing of one character (what the Python `str.lower`
method does on the ASCII letters appearing in the grand-total marker). -/
def lowerChar (c : Char) : Char :=
  if 65 ≤ c.toNat && c.toNat ≤ 90 then Char.ofNat (c.toNat + 32) else c

/-- Leading and trailing whitespace removed from a char list: the model
of Python / pandas `.str.strip()`. -/
def stripChars (l : List Char) : List Char :=
  ((l.dropWhile Char.isWhitespace).reverse.dropWhile Char.isWhitespace).reverse

/-- Pandas `Series.str.strip()` on one string. -/
def pyStrip (s : String) : String := ⟨stripChars s.data⟩

/-- Substring test on char lists (`needle` occurs somewhere in `hay`). -/
def listContains (hay needle : List Char) : Bool :=
  match hay with
  | [] => needle.isEmpty
  | _ :: t => needle.isPrefixOf hay || listContains t needle

/-- Case-insensitive containment: `hay.str.contains needle (case=False)`. -/
def containsCI (hay needle : String) : Bool :=
  listContains (hay.data.map lowerChar) (needle.data.map lowerChar)

/-- Code-point lexicographic strict comparison of char lists (the
Python `<` on strings). -/
def charListLt : List Char → List Char → Bool
  | [], [] => false
  | [], _ :: _ => true
  | _ :: _, [] => false
  | a :: as, b :: bs =>
    if a.toNat < b.toNat then true
    else if b.toNat < a.toNat then false
    else charListLt as bs

/-- Code-point lexicographic comparison of char lists (the Python `<=`). -/
def charListLe : List Char → List Char → Bool
  | [], _ => true
  | _ :: _, [] => false
  | a :: as, b :: bs =>
    if a.toNat < b.toNat then true
    else if b.toNat < a.toNat then false
    else charListLe as bs

/-- The Python string order, strictly. -/
def pyStrLt (a b : String) : Bool := charListLt a.data b.data

/-- The Python string order. -/
def pyStrLe (a b : String) : Bool := charListLe a.data b.data

/-- The grand-total test on one cell:
`Series.str.contains("Grand Total", case=False, na=False)`. -/
def cellGT (c : Cell) : Bool :=
  match c with
  | none => false
  | some s => containsCI s "Grand Total"

/-- Label lookup: position of the first occurrence of column label
`name` (pandas `df[name]`). -/
def colIdx : List Cell → String → Option Nat
  | [], _ => none
  | c :: cs, name =>
    if c == some name then some 0 else (colIdx cs name).map (· + 1)

/-- The header test: `"Segment" in row.values and "Supplier / Product"
in row.values`. -/
def isHeaderRow (r : List Cell) : Bool :=
  r.contains (some "Segment") && r.contains (some "Supplier / Product")

/-- The header scan (main.py lines 9-13): first row holding both marker
labels, returned together with the rows strictly after it. -/
def findHeader : Grid → Option (List Cell × Grid)
  | [] => none
  | r :: rs => if isHeaderRow r then some (r, rs) else findHeader rs

/-- The nine forward-filled key columns (main.py lines 23-33). -/
def keyCols : List String :=
  ["Segment", "Modules(tags)", "Hosting", "Orientation",
   "Regulatory focus (typical)", "AU support", "Impl", "Proj$", "Lic$ (p.a.)"]

/-- Forward fill (`fillna` with the ffill method) on column position `j`, threading the last
seen non-missing value through the rows top-to-bottom. -/
def ffillRows (j : Nat) (last : Cell) : List (List Cell) → List (List Cell)
  | [] => []
  | r :: rs =>
    match r.getD j none with
    | some v => r :: ffillRows j (some v) rs
    | none => r.set j last :: ffillRows j last rs

/-- The ffill loop over the key columns (main.py lines 37-38); a missing
column label raises KeyError. -/
def ffillKeys (cols : List Cell) : List String → List (List Cell) → Except Err (List (List Cell))
  | [], rows => .ok rows
  | k :: ks, rows =>
    match colIdx cols k with
    | none => .error (.keyError k)
    | some j => ffillKeys cols ks (ffillRows j none rows)

/-- Pandas `drop_duplicates` keeping first occurrences: drop a row whose cell contents
were already seen; index labels of survivors are kept unchanged. -/
def dropDuplicates (seen : List (List Cell)) : List (Nat × List Cell) → List (Nat × List Cell)
  | [] => []
  | (i, r) :: rs =>
    if seen.contains r then dropDuplicates seen rs
    else (i, r) :: dropDuplicates (r :: seen) rs

/-- Modelled from the spec: the per-column description the spec gives of
forward fill — "replace a missing value with the nearest preceding
non-missing value in that same column, scanning top-to-bottom", carrying
the last seen value (`last` is what precedes the listed cells). -/
def ffillColSpec (last : Cell) : List Cell → List Cell
  | [] => []
  | c :: cs =>
    match c with
    | some v => some v :: ffillColSpec (some v) cs
    | none => last :: ffillColSpec last cs

/-- The data phase of `parse_pivot_rules` (main.py lines 18-52) run on
the rows after the header: ffill key columns, drop blank-supplier rows,
strip the supplier, drop "Grand Total" rows, reset the index, then drop
duplicates. -/
def normalizeData (cols : List Cell) (data : List (List Cell)) : Except Err Table :=
  match ffillKeys cols keyCols data with
  | .error e => .error e
  | .ok filled =>
    match colIdx cols "Supplier / Product" with
    | none => .error (.keyError "Supplier / Product")
    | some js =>
      let d1 := filled.filter (fun r => (r.getD js none).isSome)
      let d2 := d1.map (fun r => r.set js ((r.getD js none).map pyStrip))
      let d3 := d2.filter (fun r => !(r.getD js none == some ""))
      let d4 := d3.filter (fun r => !cellGT (r.getD js none))
      match colIdx cols "Segment" with
      | none => .error (.keyError "Segment")
      | some jseg =>
        let d5 := d4.filter (fun r => !cellGT (r.getD jseg none))
        .ok ⟨cols, dropDuplicates [] d5.enum⟩

/-- The parser `parse_pivot_rules`: locate the header row, take the rows strictly
after it as data, use the stripped header cells as column labels. -/
def parse_pivot_rules (g : Grid) : Except Err Table :=
  match findHeader g with
  | none => .error .headerNotFound
  | some (h, rest) => normalizeData (h.map (Option.map pyStrip)) rest

/-- The five sidebar selections; `""` / `[]` means "nothing selected". -/
structure Selection where
  seg : String
  mods : List String
  host : String
  orient : String
  reg : String
deriving DecidableEq, Repr

/-- Membership `Series.isin(value)` on one cell (NaN is never a member). -/
def cellIn (mods : List String) (c : Cell) : Bool :=
  match c with
  | some v => mods.contains v
  | none => false

/-- One iteration of the filter loop (main.py lines 166-176): when the
predicate is active, boolean-mask the rows by `p` applied to the cell in
column `name`; the column lookup can raise KeyError. -/
def stage (cols : List Cell) (active : Bool) (name : String) (p : Cell → Bool)
    (rows : List (Nat × List Cell)) : Except Err (List (Nat × List Cell)) :=
  if active then
    match colIdx cols name with
    | none => .error (.keyError name)
    | some j => .ok (rows.filter (fun r => p (r.2.getD j none)))
  else .ok rows

/-- The filter loop over `user_strategic_answers`, in dict insertion
order (main.py lines 120-129 and 164-176). -/
def filterTable (t : Table) (sel : Selection) : Except Err Table := do
  let r1 ← stage t.cols (sel.seg != "") "Segment" (fun c => c == some sel.seg) t.rows
  let r2 ← stage t.cols (!sel.mods.isEmpty) "Modules(tags)" (cellIn sel.mods) r1
  let r3 ← stage t.cols (sel.host != "") "Hosting" (fun c => c == some sel.host) r2
  let r4 ← stage t.cols (sel.orient != "") "Orientation" (fun c => c == some sel.orient) r3
  let r5 ← stage t.cols (sel.reg != "") "Regulatory focus (typical)" (fun c => c == some sel.reg) r4
  pure ⟨t.cols, r5⟩

/-- Python `set(...)` then membership-based dedup: keep first occurrences. -/
def pySetDedup (seen : List String) : List String → List String
  | [] => []
  | s :: rest =>
    if seen.contains s then pySetDedup seen rest
    else s :: pySetDedup (s :: seen) rest

/-- Python `sorted` on strings: ascending code-point order. -/
def pySorted (l : List String) : List String :=
  List.insertionSort (fun a b => pyStrLe a b = true) l

/-- One aggregated display string for one group column:
`", ".join(sorted(set(x.dropna().astype(str))))`. -/
def joinVals (l : List Cell) : String :=
  String.intercalate ", " (pySorted (pySetDedup [] (l.filterMap id)))

/-- The cells of column `j` across the rows of the group keyed by
supplier `s` (the rows whose supplier cell equals `some s`). -/
def groupCells (rows : List (Nat × List Cell)) (jsup : Nat) (s : String) (j : Nat) : List Cell :=
  (rows.filter (fun r => r.2.getD jsup none == some s)).map (fun r => r.2.getD j none)

/-- One aggregated output row. -/
structure AggRow where
  supplier : String
  au : String
  impl : String
  proj : String
  lic : String
deriving DecidableEq, Repr

/-- The aggregated result: column labels plus rows. -/
structure AggResult where
  cols : List String
  rows : List AggRow
deriving DecidableEq, Repr

/-- The `rename(columns=...)` map (main.py lines 194-199). -/
def renameMap (s : String) : String :=
  if s == "AU support" then "AU Support"
  else if s == "Impl" then "Impl. Time"
  else if s == "Proj$" then "Proj. Budget"
  else if s == "Lic$ (p.a.)" then "Lic. Budget (p.a.)"
  else s

/-- Column labels of `groupby(...).agg({...}).reset_index()`. -/
def groupbyCols : List String :=
  ["Supplier / Product", "AU support", "Impl", "Proj$", "Lic$ (p.a.)"]

/-- The consolidation block (main.py lines 182-206): if the filtered
frame is empty, an empty frame with the five literal output columns;
otherwise group by supplier (sorted distinct non-missing keys), join
the distinct values of each detail column, rename the columns and sort by
supplier. -/
def aggregate (t : Table) : Except Err AggResult :=
  if t.rows.isEmpty then
    .ok ⟨["Supplier / Product", "AU Support", "Impl. Time", "Proj. Budget", "Lic. Budget (p.a.)"], []⟩
  else
    match colIdx t.cols "Supplier / Product" with
    | none => .error (.keyError "Supplier / Product")
    | some jsup =>
      match colIdx t.cols "AU support" with
      | none => .error (.keyError "AU support")
      | some jau =>
        match colIdx t.cols "Impl" with
        | none => .error (.keyError "Impl")
        | some jim =>
          match colIdx t.cols "Proj$" with
          | none => .error (.keyError "Proj$")
          | some jpr =>
            match colIdx t.cols "Lic$ (p.a.)" with
            | none => .error (.keyError "Lic$ (p.a.)")
            | some jli =>
              let sups := pySorted (pySetDedup []
                (t.rows.filterMap (fun r => r.2.getD jsup none)))
              let rows := sups.map (fun s =>
                AggRow.mk s
                  (joinVals (groupCells t.rows jsup s jau))
                  (joinVals (groupCells t.rows jsup s jim))
                  (joinVals (groupCells t.rows jsup s jpr))
                  (joinVals (groupCells t.rows jsup s jli)))
              let sorted := List.insertionSort (fun a b => pyStrLe a.supplier b.supplier = true) rows
              .ok ⟨groupbyCols.map renameMap, sorted⟩

/-- The truthiness test `if user_strategic_answers:` — at least one
widget value is truthy. -/
def hasActive (sel : Selection) : Bool :=
  sel.seg != "" || !sel.mods.isEmpty || sel.host != "" ||
  sel.orient != "" || sel.reg != ""

/-- What the results panel shows (main.py lines 212-220). -/
inductive Display where
  | noSelection : Display
  | noMatches : Display
  | results : Nat → AggResult → Display
deriving DecidableEq, Repr

/-- The whole per-rerun pipeline: filter, aggregate, then choose the
display branch (the aggregation is computed before the branch, exactly
as in the script). -/
def render (t : Table) (sel : Selection) : Except Err Display := do
  let f ← filterTable t sel
  let agg ← aggregate f
  if !hasActive sel then pure .noSelection
  else if agg.rows.isEmpty then pure .noMatches
  else pure (.results agg.rows.length agg)

/-- The conjunction of the five filter predicates of the sidebar, each
guarded by its activity, read off the cells of a row at the looked-up column
positions `j1`..`j5` (Segment, Modules(tags), Hosting, Orientation,
Regulatory focus). -/
def rowMatches (j1 j2 j3 j4 j5 : Nat) (sel : Selection) (r : Nat × List Cell) : Bool :=
  (sel.seg == "" || r.2.getD j1 none == some sel.seg) &&
  (sel.mods.isEmpty || cellIn sel.mods (r.2.getD j2 none)) &&
  (sel.host == "" || r.2.getD j3 none == some sel.host) &&
  (sel.orient == "" || r.2.getD j4 none == some sel.orient) &&
  (sel.reg == "" || r.2.getD j5 none == some sel.reg)

/-- Selection `sel2` extends `sel1` by exactly one additional active predicate:
one selection goes from inactive to active, the other four are
unchanged. -/
def AddsOne (sel1 sel2 : Selection) : Prop :=
  (sel1.seg = "" ∧ sel2.seg ≠ "" ∧ sel2.mods = sel1.mods ∧ sel2.host = sel1.host ∧
    sel2.orient = sel1.orient ∧ sel2.reg = sel1.reg) ∨
  (sel1.mods = [] ∧ sel2.mods ≠ [] ∧ sel2.seg = sel1.seg ∧ sel2.host = sel1.host ∧
    sel2.orient = sel1.orient ∧ sel2.reg = sel1.reg) ∨
  (sel1.host = "" ∧ sel2.host ≠ "" ∧ sel2.seg = sel1.seg ∧ sel2.mods = sel1.mods ∧
    sel2.orient = sel1.orient ∧ sel2.reg = sel1.reg) ∨
  (sel1.orient = "" ∧ sel2.orient ≠ "" ∧ sel2.seg = sel1.seg ∧ sel2.mods = sel1.mods ∧
    sel2.host = sel1.host ∧ sel2.reg = sel1.reg) ∨
  (sel1.reg = "" ∧ sel2.reg ≠ "" ∧ sel2.seg = sel1.seg ∧ sel2.mods = sel1.mods ∧
    sel2.host = sel1.host ∧ sel2.orient = sel1.orient)

/-- Sample data: a header row holding all ten column labels. -/
def sampleHeader : List Cell :=
  (["Segment", "Modules(tags)", "Hosting", "Orientation", "Regulatory focus (typical)",
    "AU support", "Impl", "Proj$", "Lic$ (p.a.)", "Supplier / Product"]).map some

/-- Sample data row for supplier SupA. -/
def sampleRowA : List Cell :=
  (["S1", "M1", "H1", "O1", "R1", "Yes", "3m", "10k", "5k", "SupA"]).map some

/-- Sample data row for supplier SupB. -/
def sampleRowB : List Cell :=
  (["S1", "M2", "H1", "O1", "R1", "No", "6m", "20k", "9k", "SupB"]).map some

/-- A data row with a missing Segment cell (a merged-cell artifact). -/
def gapRow : List Cell :=
  [none, some "M2", some "H2", some "O2", some "R2", some "No", some "6m",
   some "20k", some "9k", some "SupB"]

/-- The row `gapRow` after forward fill took the Segment value from
`sampleRowA`. -/
def gapFilledRow : List Cell :=
  [some "S1", some "M2", some "H2", some "O2", some "R2", some "No", some "6m",
   some "20k", some "9k", some "SupB"]

/-- A well-formed raw sheet with two data rows. -/
def sampleGrid : Grid := [sampleHeader, sampleRowA, sampleRowB]

/-- The table `sampleGrid` normalizes to. -/
def sampleTable : Table := ⟨sampleHeader, [(0, sampleRowA), (1, sampleRowB)]⟩

/-- A raw sheet with a junk leading row and a duplicated data row. -/
def dupGrid : Grid := [[none, some "junk"], sampleHeader, sampleRowA, sampleRowA, sampleRowB]

/-- The table `dupGrid` normalizes to: note the index gap left by
dropping the duplicate after the reset. -/
def dupTable : Table := ⟨sampleHeader, [(0, sampleRowA), (2, sampleRowB)]⟩

/-- A sheet whose only row holds the two marker labels and nothing else:
a header row is found but every key column lookup must fail. -/
def bareHeaderGrid : Grid := [[some "Segment", some "Supplier / Product"]]

/-- A table whose supplier "A" has AU-support values `""` and `"x"`:
the blank string is present (not missing), so the code aggregates it. -/
def blankDetailTable : Table :=
  ⟨sampleHeader,
   [(0, (["S1", "M1", "H1", "O1", "R1", "", "3m", "10k", "5k", "A"]).map some),
    (1, (["S1", "M1", "H1", "O1", "R1", "x", "3m", "10k", "5k", "A"]).map some)]⟩

/-- The aggregation of `sampleTable`. -/
def sampleAgg : AggResult :=
  ⟨["Supplier / Product", "AU Support", "Impl. Time", "Proj. Budget", "Lic. Budget (p.a.)"],
   [⟨"SupA", "Yes", "3m", "10k", "5k"⟩, ⟨"SupB", "No", "6m", "20k", "9k"⟩]⟩

/-- No selection at all. -/
def emptySel : Selection := ⟨"", [], "", "", ""⟩

/-- Only the Segment filter is active. -/
def segSel : Selection := ⟨"S1", [], "", "", ""⟩

/-- Segment and module filters are active. -/
def segModSel : Selection := ⟨"S1", ["M1"], "", "", ""⟩

/-- A Segment selection matching no row. -/
def noMatchSel : Selection := ⟨"ZZZ", [], "", "", ""⟩

/-! ### Basic list lemmas -/

theorem getD_set_self {α : Type} : ∀ (l : List α) (j : Nat) (v d : α),
    j < l.length → (l.set j v).getD j d = v
  | [], _, _, _, h => absurd h (by simp)
  | _ :: _, 0, _, _, _ => rfl
  | _ :: xs, j + 1, v, d, h => getD_set_self xs j v d (Nat.lt_of_succ_lt_succ h)

theorem getD_set_other {α : Type} : ∀ (l : List α) (j k : Nat) (v d : α),
    j ≠ k → (l.set j v).getD k d = l.getD k d
  | [], _, _, _, _, _ => rfl
  | _ :: _, 0, 0, _, _, h => absurd rfl h
  | _ :: _, 0, _ + 1, _, _, _ => rfl
  | _ :: _, _ + 1, 0, _, _, _ => rfl
  | _ :: xs, j + 1, k + 1, v, d, h =>
    getD_set_other xs j k v d (fun e => h (by rw [e]))

theorem lt_length_of_getD_some {α : Type} : ∀ (l : List (Option α)) (j : Nat) (v : α),
    l.getD j none = some v → j < l.length
  | [], _, _, h => nomatch h
  | _ :: _, 0, _, _ => Nat.succ_pos _
  | _ :: xs, j + 1, v, h => Nat.succ_lt_succ (lt_length_of_getD_some xs j v h)

theorem contains_iff_mem {α : Type} [BEq α] [LawfulBEq α] {l : List α} {a : α} :
    l.contains a = true ↔ a ∈ l := List.elem_iff

theorem snd_mem_of_mem_enumFrom {α : Type} : ∀ (l : List α) (n : Nat) (p : Nat × α),
    p ∈ l.enumFrom n → p.2 ∈ l
  | [], _, _, h => absurd h (by simp [List.enumFrom])
  | x :: xs, n, p, h => by
    rw [List.enumFrom] at h
    rcases List.mem_cons.mp h with h | h
    · rw [h]; exact List.mem_cons_self _ _
    · exact List.mem_cons_of_mem _ (snd_mem_of_mem_enumFrom xs (n + 1) p h)

theorem pairwise_fst_lt_enumFrom {α : Type} : ∀ (l : List α) (n : Nat),
    List.Pairwise (fun a b => a.1 < b.1) (l.enumFrom n)
  | [], _ => by simp [List.enumFrom]
  | x :: xs, n => by
    rw [List.enumFrom]
    refine List.Pairwise.cons ?_ (pairwise_fst_lt_enumFrom xs (n + 1))
    intro p hp
    obtain ⟨i, a⟩ := p
    have h := (List.mem_enumFrom hp).1
    simpa using Nat.lt_of_lt_of_le (Nat.lt_succ_self n) h

/-! ### drop_duplicates lemmas -/

theorem dropDuplicates_sublist : ∀ (l : List (Nat × List Cell)) (seen : List (List Cell)),
    (dropDuplicates seen l).Sublist l
  | [], _ => .slnil
  | (i, r) :: rs, seen => by
    rw [dropDuplicates]
    split
    · exact .cons _ (dropDuplicates_sublist rs seen)
    · exact .cons₂ _ (dropDuplicates_sublist rs (r :: seen))

theorem dropDuplicates_spec : ∀ (l : List (Nat × List Cell)) (seen : List (List Cell)),
    (∀ p ∈ dropDuplicates seen l, p.2 ∉ seen) ∧
      ((dropDuplicates seen l).map Prod.snd).Nodup
  | [], _ => ⟨by simp [dropDuplicates], by simp [dropDuplicates]⟩
  | (i, r) :: rs, seen => by
    rw [dropDuplicates]
    split
    next h =>
      exact dropDuplicates_spec rs seen
    next h =>
      have hmem : r ∉ seen := fun hm => h (contains_iff_mem.mpr hm)
      have ih := dropDuplicates_spec rs (r :: seen)
      constructor
      · intro p hp
        rcases List.mem_cons.mp hp with e | hp'
        · rw [e]; exact hmem
        · exact fun hin => (ih.1 p hp') (List.mem_cons_of_mem _ hin)
      · rw [List.map_cons, List.nodup_cons]
        refine ⟨?_, ih.2⟩
        intro hin
        rcases List.mem_map.mp hin with ⟨p, hp, he⟩
        exact (ih.1 p hp) (by rw [he]; exact List.mem_cons_self _ _)

/-! ### Python set / sorted lemmas -/

theorem pySetDedup_spec : ∀ (l seen : List String),
    (∀ x ∈ pySetDedup seen l, x ∈ l ∧ x ∉ seen) ∧ (pySetDedup seen l).Nodup ∧
      (∀ x ∈ l, x ∉ seen → x ∈ pySetDedup seen l)
  | [], _ => ⟨by simp [pySetDedup], by simp [pySetDedup], by simp⟩
  | s :: rest, seen => by
    rw [pySetDedup]
    split
    next h =>
      have hs : s ∈ seen := contains_iff_mem.mp h
      have ih := pySetDedup_spec rest seen
      refine ⟨fun x hx => ⟨List.mem_cons_of_mem _ (ih.1 x hx).1, (ih.1 x hx).2⟩, ih.2.1, ?_⟩
      intro x hx hxs
      rcases List.mem_cons.mp hx with e | hx'
      · exact absurd (e ▸ hs) hxs
      · exact ih.2.2 x hx' hxs
    next h =>
      have hs : s ∉ seen := fun hm => h (contains_iff_mem.mpr hm)
      have ih := pySetDedup_spec rest (s :: seen)
      refine ⟨?_, ?_, ?_⟩
      · intro x hx
        rcases List.mem_cons.mp hx with e | hx'
        · exact ⟨e ▸ List.mem_cons_self _ _, e ▸ hs⟩
        · exact ⟨List.mem_cons_of_mem _ (ih.1 x hx').1,
            fun hin => (ih.1 x hx').2 (List.mem_cons_of_mem _ hin)⟩
      · rw [List.nodup_cons]
        exact ⟨fun hin => (ih.1 s hin).2 (List.mem_cons_self _ _), ih.2.1⟩
      · intro x hx hxs
        rcases List.mem_cons.mp hx with e | hx'
        · exact e ▸ List.mem_cons_self _ _
        · by_cases e : x = s
          · exact e ▸ List.mem_cons_self _ _
          · exact List.mem_cons_of_mem _
              (ih.2.2 x hx' (fun hm => by
                rcases List.mem_cons.mp hm with e' | h' <;> [exact e e'; exact hxs h']))

/-! ### Code-point order lemmas -/

theorem char_toNat_inj {a b : Char} (h : a.toNat = b.toNat) : a = b :=
  Char.eq_of_val_eq (UInt32.ext h)

theorem charListLe_total : ∀ a b : List Char, charListLe a b = true ∨ charListLe b a = true
  | [], _ => Or.inl rfl
  | _ :: _, [] => Or.inr rfl
  | a :: as, b :: bs => by
    rw [charListLe, charListLe]
    rcases Nat.lt_trichotomy a.toNat b.toNat with h | h | h
    · left; simp [h, Nat.not_lt.mpr (Nat.le_of_lt h)]
    · simp only [h, Nat.lt_irrefl, if_false]
      exact charListLe_total as bs
    · right; simp [h, Nat.not_lt.mpr (Nat.le_of_lt h)]

theorem charListLe_trans : ∀ a b c : List Char,
    charListLe a b = true → charListLe b c = true → charListLe a c = true
  | [], _, _, _, _ => rfl
  | _ :: _, [], _, h, _ => nomatch h
  | _ :: _, _ :: _, [], _, h => nomatch h
  | a :: as, b :: bs, c :: cs, h1, h2 => by
    rw [charListLe] at h1 h2 ⊢
    rcases Nat.lt_trichotomy a.toNat b.toNat with hab | hab | hab
    · rcases Nat.lt_trichotomy b.toNat c.toNat with hbc | hbc | hbc
      · simp [Nat.lt_trans hab hbc]
      · simp [hbc ▸ hab]
      · rw [if_neg (Nat.lt_asymm hbc), if_pos hbc] at h2; exact nomatch h2
    · rcases Nat.lt_trichotomy b.toNat c.toNat with hbc | hbc | hbc
      · simp [hab ▸ hbc]
      · rw [if_neg (hab ▸ hbc ▸ Nat.lt_irrefl _), if_neg (hab ▸ hbc ▸ Nat.lt_irrefl _)]
        rw [if_neg (hab ▸ Nat.lt_irrefl _), if_neg (hab ▸ Nat.lt_irrefl _)] at h1
        rw [if_neg (hbc ▸ Nat.lt_irrefl _), if_neg (hbc ▸ Nat.lt_irrefl _)] at h2
        exact charListLe_trans as bs cs h1 h2
      · rw [if_neg (Nat.lt_asymm hbc), if_pos hbc] at h2; exact nomatch h2
    · rw [if_neg (Nat.lt_asymm hab), if_pos hab] at h1; exact nomatch h1

theorem charListLt_of_le_of_ne : ∀ a b : List Char,
    charListLe a b = true → a ≠ b → charListLt a b = true
  | [], [], _, h => absurd rfl h
  | [], _ :: _, _, _ => rfl
  | _ :: _, [], h, _ => nomatch h
  | a :: as, b :: bs, hle, hne => by
    rw [charListLe] at hle
    rw [charListLt]
    rcases Nat.lt_trichotomy a.toNat b.toNat with h | h | h
    · simp [h]
    · have hab : a = b := char_toNat_inj h
      rw [if_neg (h ▸ Nat.lt_irrefl _), if_neg (h ▸ Nat.lt_irrefl _)] at hle ⊢
      exact charListLt_of_le_of_ne as bs hle (fun e => hne (by rw [hab, e]))
    · rw [if_neg (Nat.lt_asymm h), if_pos h] at hle; exact nomatch hle

theorem pyStrLe_total (a b : String) : pyStrLe a b = true ∨ pyStrLe b a = true :=
  charListLe_total a.data b.data

theorem pyStrLe_trans {a b c : String} (h1 : pyStrLe a b = true) (h2 : pyStrLe b c = true) :
    pyStrLe a c = true := charListLe_trans a.data b.data c.data h1 h2

theorem pyStrLt_of_le_of_ne {a b : String} (hle : pyStrLe a b = true) (hne : a ≠ b) :
    pyStrLt a b = true :=
  charListLt_of_le_of_ne a.data b.data hle
    (fun e => hne (by cases a; cases b; exact congrArg String.mk e))

@[instance] theorem pyStrLe_isTotal : IsTotal String (fun a b => pyStrLe a b = true) :=
  ⟨pyStrLe_total⟩

@[instance] theorem pyStrLe_isTrans : IsTrans String (fun a b => pyStrLe a b = true) :=
  ⟨fun _ _ _ => pyStrLe_trans⟩

/-! ### pySorted lemmas -/

theorem pySorted_perm (l : List String) : (pySorted l).Perm l :=
  List.perm_insertionSort _ l

theorem pySorted_mem {l : List String} {s : String} : s ∈ pySorted l ↔ s ∈ l :=
  (pySorted_perm l).mem_iff

theorem pySorted_sorted (l : List String) :
    List.Sorted (fun a b => pyStrLe a b = true) (pySorted l) :=
  List.sorted_insertionSort _ l

theorem pairwise_lt_of_sorted_nodup {l : List String}
    (hs : List.Sorted (fun a b => pyStrLe a b = true) l) (hn : l.Nodup) :
    List.Pairwise (fun a b => pyStrLt a b = true) l :=
  (hs.and hn).imp (fun h => pyStrLt_of_le_of_ne h.1 h.2)

theorem pairwise_lt_pySorted {l : List String} (hn : l.Nodup) :
    List.Pairwise (fun a b => pyStrLt a b = true) (pySorted l) :=
  pairwise_lt_of_sorted_nodup (pySorted_sorted l) ((pySorted_perm l).nodup_iff.mpr hn)

/-! ### Column lookup lemmas -/

theorem colIdx_get : ∀ (cols : List Cell) (name : String) (j : Nat),
    colIdx cols name = some j → cols.getD j none = some name
  | [], _, _, h => nomatch h
  | c :: cs, name, j, h => by
    rw [colIdx] at h
    split at h
    next hc =>
      cases h
      exact beq_iff_eq.mp hc
    next hc =>
      rcases Option.map_eq_some'.mp h with ⟨j', hj', he⟩
      cases he
      exact colIdx_get cs name j' hj'

theorem colIdx_name_inj {cols : List Cell} {k k' : String} {j : Nat}
    (h1 : colIdx cols k = some j) (h2 : colIdx cols k' = some j) : k = k' := by
  have e1 := colIdx_get cols k j h1
  have e2 := colIdx_get cols k' j h2
  exact Option.some.inj (e1.symm.trans e2)

/-! ### Forward-fill lemmas -/

theorem ffillColSpec_cons_some (last : Cell) (v : String) (cs : List Cell) :
    ffillColSpec last (some v :: cs) = some v :: ffillColSpec (some v) cs := rfl

theorem ffillColSpec_cons_none (last : Cell) (cs : List Cell) :
    ffillColSpec last (none :: cs) = last :: ffillColSpec last cs := rfl

theorem mem_ffillRows_shape : ∀ (rows : List (List Cell)) (j : Nat) (last : Cell)
    (r' : List Cell), r' ∈ ffillRows j last rows →
    ∃ r ∈ rows, ∃ c, r' = r ∨ r' = r.set j c
  | [], _, _, _, h => absurd h (by simp [ffillRows])
  | r :: rs, j, last, r', h => by
    cases hv : r.getD j none with
    | some v =>
      simp only [ffillRows, hv] at h
      rcases List.mem_cons.mp h with e | h'
      · exact ⟨r, List.mem_cons_self _ _, last, Or.inl e⟩
      · rcases mem_ffillRows_shape rs j (some v) r' h' with ⟨r0, hr0, c, ho⟩
        exact ⟨r0, List.mem_cons_of_mem _ hr0, c, ho⟩
    | none =>
      simp only [ffillRows, hv] at h
      rcases List.mem_cons.mp h with e | h'
      · exact ⟨r, List.mem_cons_self _ _, last, Or.inr e⟩
      · rcases mem_ffillRows_shape rs j last r' h' with ⟨r0, hr0, c, ho⟩
        exact ⟨r0, List.mem_cons_of_mem _ hr0, c, ho⟩

theorem ffillRows_col : ∀ (rows : List (List Cell)) (j : Nat) (last : Cell),
    (∀ r ∈ rows, j < r.length) →
    (ffillRows j last rows).map (fun r => r.getD j none) =
      ffillColSpec last (rows.map (fun r => r.getD j none))
  | [], _, _, _ => rfl
  | r :: rs, j, last, hlen => by
    cases hv : r.getD j none with
    | some v =>
      simp only [ffillRows, hv, List.map_cons, ffillColSpec_cons_some]
      exact congrArg _ (ffillRows_col rs j (some v)
        (fun r' hr' => hlen r' (List.mem_cons_of_mem _ hr')))
    | none =>
      simp only [ffillRows, hv, List.map_cons, ffillColSpec_cons_none]
      rw [getD_set_self r j last none (hlen r (List.mem_cons_self _ _))]
      exact congrArg _ (ffillRows_col rs j last
        (fun r' hr' => hlen r' (List.mem_cons_of_mem _ hr')))

theorem ffillRows_other : ∀ (rows : List (List Cell)) (j k : Nat) (last : Cell),
    j ≠ k →
    (ffillRows j last rows).map (fun r => r.getD k none) =
      rows.map (fun r => r.getD k none)
  | [], _, _, _, _ => rfl
  | r :: rs, j, k, last, hne => by
    cases hv : r.getD j none with
    | some v =>
      simp only [ffillRows, hv, List.map_cons]
      exact congrArg _ (ffillRows_other rs j k (some v) hne)
    | none =>
      simp only [ffillRows, hv, List.map_cons]
      rw [getD_set_other r j k last none hne]
      exact congrArg _ (ffillRows_other rs j k last hne)

theorem ffillKeys_ok_lookup : ∀ (ks : List String) (cols : List Cell)
    (rows out : List (List Cell)), ffillKeys cols ks rows = .ok out →
    ∀ k ∈ ks, ∃ j, colIdx cols k = some j
  | [], _, _, _, _, _, h => absurd h (by simp)
  | k0 :: ks', cols, rows, out, h, k, hk => by
    rw [ffillKeys] at h
    cases hc : colIdx cols k0 with
    | none => rw [hc] at h; exact nomatch h
    | some j0 =>
      rw [hc] at h
      rcases List.mem_cons.mp hk with e | hk'
      · exact ⟨j0, e ▸ hc⟩
      · exact ffillKeys_ok_lookup ks' cols _ out h k hk'

theorem ffillKeys_error_keyError : ∀ (ks : List String) (cols : List Cell)
    (rows : List (List Cell)) (e : Err), ffillKeys cols ks rows = .error e →
    ∃ k, e = .keyError k
  | [], _, _, _, h => nomatch h
  | k0 :: ks', cols, rows, e, h => by
    rw [ffillKeys] at h
    cases hc : colIdx cols k0 with
    | none => rw [hc] at h; exact ⟨k0, (Except.error.inj h).symm⟩
    | some j0 => rw [hc] at h; exact ffillKeys_error_keyError ks' cols _ e h

theorem ffillKeys_preserve : ∀ (ks : List String) (cols : List Cell)
    (rows out : List (List Cell)), ffillKeys cols ks rows = .ok out →
    ∀ j, (∀ k ∈ ks, colIdx cols k ≠ some j) →
    out.map (fun r => r.getD j none) = rows.map (fun r => r.getD j none)
  | [], _, rows, out, h, _, _ => by cases h; rfl
  | k0 :: ks', cols, rows, out, h, j, hne => by
    rw [ffillKeys] at h
    cases hc : colIdx cols k0 with
    | none => rw [hc] at h; exact nomatch h
    | some j0 =>
      rw [hc] at h
      have hj0 : j0 ≠ j := fun e => hne k0 (List.mem_cons_self _ _) (e ▸ hc)
      rw [ffillKeys_preserve ks' cols _ out h j
        (fun k hk => hne k (List.mem_cons_of_mem _ hk))]
      exact ffillRows_other rows j0 j none hj0

theorem ffillKeys_mem_len : ∀ (ks : List String) (cols : List Cell)
    (rows out : List (List Cell)), ffillKeys cols ks rows = .ok out →
    ∀ r' ∈ out, ∃ r ∈ rows, r'.length = r.length
  | [], _, rows, out, h, r', hr' => by cases h; exact ⟨r', hr', rfl⟩
  | k0 :: ks', cols, rows, out, h, r', hr' => by
    rw [ffillKeys] at h
    cases hc : colIdx cols k0 with
    | none => rw [hc] at h; exact nomatch h
    | some j0 =>
      rw [hc] at h
      rcases ffillKeys_mem_len ks' cols _ out h r' hr' with ⟨r1, hr1, he1⟩
      rcases mem_ffillRows_shape rows j0 none r1 hr1 with ⟨r0, hr0, c, ho⟩
      refine ⟨r0, hr0, ?_⟩
      rcases ho with e | e
      · rw [he1, e]
      · rw [he1, e, List.length_set]

theorem ffillKeys_col : ∀ (ks : List String), ks.Nodup → ∀ (cols : List Cell)
    (rows out : List (List Cell)), ffillKeys cols ks rows = .ok out →
    ∀ k ∈ ks, ∀ j, colIdx cols k = some j → (∀ r ∈ rows, j < r.length) →
    out.map (fun r => r.getD j none) =
      ffillColSpec none (rows.map (fun r => r.getD j none))
  | [], _, _, _, _, _, k, hk, _, _, _ => absurd hk (by simp)
  | k0 :: ks', hnd, cols, rows, out, h, k, hk, j, hj, hlen => by
    rw [ffillKeys] at h
    cases hc : colIdx cols k0 with
    | none => rw [hc] at h; exact nomatch h
    | some j0 =>
      rw [hc] at h
      rcases List.mem_cons.mp hk with e | hk'
      · subst e
        have hjj : j0 = j := Option.some.inj (hc ▸ hj)
        subst hjj
        have hnot : ∀ k' ∈ ks', colIdx cols k' ≠ some j0 := by
          intro k' hk' hcon
          exact (List.nodup_cons.mp hnd).1
            ((colIdx_name_inj hcon hc) ▸ hk')
        rw [ffillKeys_preserve ks' cols _ out h j0 hnot]
        exact ffillRows_col rows j0 none hlen
      · have hne : j0 ≠ j := by
          intro e
          subst e
          exact (List.nodup_cons.mp hnd).1 ((colIdx_name_inj hj hc) ▸ hk')
        have hlen' : ∀ r' ∈ ffillRows j0 none rows, j < r'.length := by
          intro r' hr'
          rcases mem_ffillRows_shape rows j0 none r' hr' with ⟨r0, hr0, c, ho⟩
          rcases ho with e | e
          · exact e ▸ hlen r0 hr0
          · rw [e, List.length_set]; exact hlen r0 hr0
        rw [ffillKeys_col ks' (List.nodup_cons.mp hnd).2 cols _ out h k hk' j hj hlen']
        rw [ffillRows_other rows j0 j none hne]

/-! ### ffillColSpec missing-prefix lemmas -/

theorem ffillColSpec_some_no_none : ∀ (l : List Cell) (v : String),
    none ∉ ffillColSpec (some v) l
  | [], _ => by simp [ffillColSpec]
  | c :: cs, v => by
    cases c with
    | some w =>
      rw [ffillColSpec_cons_some]
      intro h
      rcases List.mem_cons.mp h with e | h'
      · exact nomatch e
      · exact ffillColSpec_some_no_none cs w h'
    | none =>
      rw [ffillColSpec_cons_none]
      intro h
      rcases List.mem_cons.mp h with e | h'
      · exact nomatch e
      · exact ffillColSpec_some_no_none cs v h'

theorem ffillColSpec_none_prefix : ∀ (l : List Cell) (i : Nat),
    (ffillColSpec none l).get? i = some none → ∀ m ≤ i, l.get? m = some none
  | [], i, h, _, _ => nomatch h
  | c :: cs, i, h, m, hm => by
    cases c with
    | some v =>
      rw [ffillColSpec_cons_some] at h
      cases i with
      | zero => exact nomatch h
      | succ i' =>
        rw [List.get?_cons_succ] at h
        exact absurd (List.get?_mem h) (ffillColSpec_some_no_none cs v)
    | none =>
      rw [ffillColSpec_cons_none] at h
      cases i with
      | zero =>
        cases Nat.le_zero.mp hm
        rfl
      | succ i' =>
        cases m with
        | zero => rfl
        | succ m' =>
          exact ffillColSpec_none_prefix cs i' h m' (Nat.le_of_succ_le_succ hm)

/-! ### Filter-stage lemmas -/

theorem stage_eq (cols : List Cell) (a : Bool) (name : String) (p : Cell → Bool)
    (rows : List (Nat × List Cell)) (j : Nat) (hj : colIdx cols name = some j) :
    stage cols a name p rows = .ok (rows.filter (fun r => !a || p (r.2.getD j none))) := by
  cases a with
  | false => simp [stage]
  | true => simp [stage, hj]

theorem stage_ok_sub {cols : List Cell} {a : Bool} {name : String} {p : Cell → Bool}
    {rows o : List (Nat × List Cell)} (h : stage cols a name p rows = .ok o) :
    o.Sublist rows := by
  cases a with
  | false =>
    simp only [stage, Bool.false_eq_true, if_false] at h
    cases h
    exact List.Sublist.refl _
  | true =>
    simp only [stage, if_true] at h
    cases hc : colIdx cols name with
    | none => rw [hc] at h; exact nomatch h
    | some j =>
      rw [hc] at h
      cases h
      exact List.filter_sublist _

theorem stage_mono_same {cols : List Cell} {a1 a2 : Bool} {name : String}
    {p : Cell → Bool} {rows1 rows2 o1 o2 : List (Nat × List Cell)}
    (h1 : stage cols a1 name p rows1 = .ok o1)
    (h2 : stage cols a2 name p rows2 = .ok o2)
    (hs : rows2.Sublist rows1) (himp : a1 = true → a2 = true) : o2.Sublist o1 := by
  cases a1 with
  | false =>
    simp only [stage, Bool.false_eq_true, if_false] at h1
    cases h1
    exact (stage_ok_sub h2).trans hs
  | true =>
    have ha2 := himp rfl
    subst ha2
    simp only [stage, if_true] at h1 h2
    cases hc : colIdx cols name with
    | none => rw [hc] at h1; exact nomatch h1
    | some j =>
      rw [hc] at h1 h2
      cases h1
      cases h2
      exact List.Sublist.filter _ hs

theorem stage_mono_inactive {cols : List Cell} {a1 a2 : Bool} {name1 name2 : String}
    {p1 p2 : Cell → Bool} {rows1 rows2 o1 o2 : List (Nat × List Cell)}
    (h1 : stage cols a1 name1 p1 rows1 = .ok o1)
    (h2 : stage cols a2 name2 p2 rows2 = .ok o2)
    (hs : rows2.Sublist rows1) (ha1 : a1 = false) : o2.Sublist o1 := by
  subst ha1
  simp only [stage, Bool.false_eq_true, if_false] at h1
  cases h1
  exact (stage_ok_sub h2).trans hs

theorem filterTable_ok_elim {t : Table} {sel : Selection} {u : Table}
    (h : filterTable t sel = .ok u) :
    ∃ r1 r2 r3 r4 r5,
      stage t.cols (sel.seg != "") "Segment" (fun c => c == some sel.seg) t.rows = .ok r1 ∧
      stage t.cols (!sel.mods.isEmpty) "Modules(tags)" (cellIn sel.mods) r1 = .ok r2 ∧
      stage t.cols (sel.host != "") "Hosting" (fun c => c == some sel.host) r2 = .ok r3 ∧
      stage t.cols (sel.orient != "") "Orientation" (fun c => c == some sel.orient) r3 = .ok r4 ∧
      stage t.cols (sel.reg != "") "Regulatory focus (typical)"
        (fun c => c == some sel.reg) r4 = .ok r5 ∧
      u = ⟨t.cols, r5⟩ := by
  simp only [filterTable, bind, Except.bind] at h
  split at h
  next => exact nomatch h
  next r1 h1 =>
    split at h
    next => exact nomatch h
    next r2 h2 =>
      split at h
      next => exact nomatch h
      next r3 h3 =>
        split at h
        next => exact nomatch h
        next r4 h4 =>
          split at h
          next => exact nomatch h
          next r5 h5 =>
            simp only [pure, Except.pure, Except.ok.injEq] at h
            exact ⟨r1, r2, r3, r4, r5, h1, h2, h3, h4, h5, h.symm⟩

/-! ### Header-scan and normalizer structural lemmas -/

theorem findHeader_none_iff : ∀ g : Grid,
    findHeader g = none ↔ ∀ r ∈ g, isHeaderRow r = false
  | [] => by simp [findHeader]
  | r :: rs => by
    rw [findHeader]
    split
    next hh =>
      constructor
      · intro he; exact nomatch he
      · intro hall
        exact absurd (hall r (List.mem_cons_self _ _)) (by simp [hh])
    next hh =>
      have hr : isHeaderRow r = false := by simpa using hh
      rw [findHeader_none_iff rs]
      constructor
      · intro hall r' hr'
        rcases List.mem_cons.mp hr' with e | hr''
        · rw [e]; exact hr
        · exact hall r' hr''
      · intro hall r' hr'
        exact hall r' (List.mem_cons_of_mem _ hr')

theorem findHeader_some_elim : ∀ (g : Grid) (h : List Cell) (rest : Grid),
    findHeader g = some (h, rest) →
    isHeaderRow h = true ∧
      ∃ pre, g = pre ++ h :: rest ∧ ∀ r ∈ pre, isHeaderRow r = false
  | [], _, _, he => nomatch he
  | r :: rs, h, rest, he => by
    rw [findHeader] at he
    split at he
    next hh =>
      cases he
      exact ⟨hh, [], rfl, by simp⟩
    next hh =>
      rcases findHeader_some_elim rs h rest he with ⟨h1, pre, hpre, hall⟩
      refine ⟨h1, r :: pre, by rw [hpre]; rfl, ?_⟩
      intro r' hr'
      rcases List.mem_cons.mp hr' with e | hr''
      · rw [e]; simpa using hh
      · exact hall r' hr''

theorem normalizeData_no_header (cols : List Cell) (data : List (List Cell)) :
    normalizeData cols data ≠ .error .headerNotFound := by
  intro h
  unfold normalizeData at h
  split at h
  next e hf =>
    cases h
    rcases ffillKeys_error_keyError keyCols cols data _ hf with ⟨k, hk⟩
    exact nomatch hk
  next filled hf =>
    split at h
    next => exact nomatch h
    next js hs =>
      split at h
      next => exact nomatch h
      next jseg hg => exact nomatch h

theorem normalizeData_ok_elim {cols : List Cell} {data : List (List Cell)} {t : Table}
    (h : normalizeData cols data = .ok t) :
    ∃ filled js jseg,
      ffillKeys cols keyCols data = .ok filled ∧
      colIdx cols "Supplier / Product" = some js ∧
      colIdx cols "Segment" = some jseg ∧
      t = ⟨cols, dropDuplicates []
        (((((filled.filter (fun r => (r.getD js none).isSome)).map
            (fun r => r.set js ((r.getD js none).map pyStrip))).filter
            (fun r => !(r.getD js none == some ""))).filter
            (fun r => !cellGT (r.getD js none))).filter
            (fun r => !cellGT (r.getD jseg none))).enum⟩ := by
  unfold normalizeData at h
  split at h
  next => exact nomatch h
  next filled hf =>
    split at h
    next => exact nomatch h
    next js hs =>
      split at h
      next => exact nomatch h
      next jseg hg =>
        cases h
        exact ⟨filled, js, jseg, hf, hs, hg, rfl⟩

theorem parse_ok_elim {g : Grid} {t : Table} (h : parse_pivot_rules g = .ok t) :
    ∃ hd rest, findHeader g = some (hd, rest) ∧
      normalizeData (hd.map (Option.map pyStrip)) rest = .ok t := by
  unfold parse_pivot_rules at h
  split at h
  next => exact nomatch h
  next hd rest hfh => exact ⟨hd, rest, hfh, h⟩

/-! ### Aggregation lemmas -/

theorem aggregate_empty (t : Table) (h : t.rows = []) :
    aggregate t = .ok ⟨["Supplier / Product", "AU Support", "Impl. Time",
      "Proj. Budget", "Lic. Budget (p.a.)"], []⟩ := by
  unfold aggregate
  rw [h]
  rfl

theorem aggregate_cols_eq : ∀ {t : Table} {r : AggResult}, aggregate t = .ok r →
    r.cols = ["Supplier / Product", "AU Support", "Impl. Time",
      "Proj. Budget", "Lic. Budget (p.a.)"] := by
  intro t r h
  unfold aggregate at h
  split at h
  next => cases h; rfl
  next hne =>
    split at h
    next => exact nomatch h
    next jsup hsup =>
      split at h
      next => exact nomatch h
      next jau hau =>
        split at h
        next => exact nomatch h
        next jim him =>
          split at h
          next => exact nomatch h
          next jpr hpr =>
            split at h
            next => exact nomatch h
            next jli hli =>
              cases h
              rfl

theorem aggregate_ok_of_lookups (t : Table) (jsup jau jim jpr jli : Nat)
    (hsup : colIdx t.cols "Supplier / Product" = some jsup)
    (hau : colIdx t.cols "AU support" = some jau)
    (him : colIdx t.cols "Impl" = some jim)
    (hpr : colIdx t.cols "Proj$" = some jpr)
    (hli : colIdx t.cols "Lic$ (p.a.)" = some jli) :
    ∃ r, aggregate t = .ok r := by
  unfold aggregate
  split
  next => exact ⟨_, rfl⟩
  next hne =>
    rw [hsup, hau, him, hpr, hli]
    exact ⟨_, rfl⟩

theorem aggregate_nonempty_elim {t : Table} {r : AggResult}
    (h : aggregate t = .ok r) (hne : ¬ t.rows.isEmpty = true) :
    ∃ jsup jau jim jpr jli,
      colIdx t.cols "Supplier / Product" = some jsup ∧
      colIdx t.cols "AU support" = some jau ∧
      colIdx t.cols "Impl" = some jim ∧
      colIdx t.cols "Proj$" = some jpr ∧
      colIdx t.cols "Lic$ (p.a.)" = some jli ∧
      r.rows = List.insertionSort (fun a b => pyStrLe a.supplier b.supplier = true)
        ((pySorted (pySetDedup [] (t.rows.filterMap (fun x => x.2.getD jsup none)))).map
          (fun s => AggRow.mk s
            (joinVals (groupCells t.rows jsup s jau))
            (joinVals (groupCells t.rows jsup s jim))
            (joinVals (groupCells t.rows jsup s jpr))
            (joinVals (groupCells t.rows jsup s jli)))) := by
  unfold aggregate at h
  split at h
  next he => exact absurd he hne
  next =>
    split at h
    next => exact nomatch h
    next jsup hsup =>
      split at h
      next => exact nomatch h
      next jau hau =>
        split at h
        next => exact nomatch h
        next jim him =>
          split at h
          next => exact nomatch h
          next jpr hpr =>
            split at h
            next => exact nomatch h
            next jli hli =>
              cases h
              exact ⟨jsup, jau, jim, jpr, jli, hsup, hau, him, hpr, hli, rfl⟩

theorem joinVals_spec (cells : List Cell) :
    ∃ L, List.Pairwise (fun a b => pyStrLt a b = true) L ∧
      (∀ v, v ∈ L ↔ some v ∈ cells) ∧
      joinVals cells = String.intercalate ", " L := by
  refine ⟨pySorted (pySetDedup [] (cells.filterMap id)), ?_, ?_, rfl⟩
  · exact pairwise_lt_pySorted (pySetDedup_spec (cells.filterMap id) []).2.1
  · intro v
    rw [pySorted_mem]
    constructor
    · intro hv
      have := ((pySetDedup_spec (cells.filterMap id) []).1 v hv).1
      rcases List.mem_filterMap.mp this with ⟨a, ha, he⟩
      cases he
      exact ha
    · intro hv
      exact (pySetDedup_spec (cells.filterMap id) []).2.2 v
        (List.mem_filterMap.mpr ⟨some v, hv, rfl⟩) (by simp)

/-! ### Claim theorems -/

/-- C10: filtering never modifies row contents — every row of the
filtered result is equal, field for field (including its index label),
to some row of the input table; the filter loop only removes rows. -/
theorem claim_C10 (t : Table) (sel : Selection) (u : Table)
    (h : filterTable t sel = .ok u) : ∀ r ∈ u.rows, r ∈ t.rows := by
  rcases filterTable_ok_elim h with ⟨r1, r2, r3, r4, r5, h1, h2, h3, h4, h5, hu⟩
  subst hu
  intro r hr
  exact (((((stage_ok_sub h5).trans (stage_ok_sub h4)).trans
    (stage_ok_sub h3)).trans (stage_ok_sub h2)).trans (stage_ok_sub h1)).subset hr

/-- Witness for C10 at a concrete table and selection. -/
theorem claim_C10_witness : (0, sampleRowA) ∈ sampleTable.rows :=
  claim_C10 sampleTable segModSel ⟨sampleHeader, [(0, sampleRowA)]⟩ rfl
    (0, sampleRowA) (by decide)

/-- C8: filtering is monotonic — activating one additional predicate
never increases the number of surviving rows. -/
theorem claim_C8 (t : Table) (sel sel' : Selection) (u u' : Table)
    (hadd : AddsOne sel sel')
    (h : filterTable t sel = .ok u) (h' : filterTable t sel' = .ok u') :
    u'.rows.length ≤ u.rows.length := by
  rcases filterTable_ok_elim h with ⟨r1, r2, r3, r4, r5, h1, h2, h3, h4, h5, hu⟩
  rcases filterTable_ok_elim h' with ⟨q1, q2, q3, q4, q5, g1, g2, g3, g4, g5, hu'⟩
  subst hu
  subst hu'
  show q5.length ≤ r5.length
  rcases hadd with ⟨ha, _, e2, e3, e4, e5⟩ | ⟨ha, _, e1, e3, e4, e5⟩ |
    ⟨ha, _, e1, e2, e4, e5⟩ | ⟨ha, _, e1, e2, e3, e5⟩ | ⟨ha, _, e1, e2, e3, e4⟩
  · rw [e2] at g2; rw [e3] at g3; rw [e4] at g4; rw [e5] at g5
    have s1 := stage_mono_inactive h1 g1 (List.Sublist.refl _) (by rw [ha]; rfl)
    have s2 := stage_mono_same h2 g2 s1 (fun x => x)
    have s3 := stage_mono_same h3 g3 s2 (fun x => x)
    have s4 := stage_mono_same h4 g4 s3 (fun x => x)
    exact (stage_mono_same h5 g5 s4 (fun x => x)).length_le
  · rw [e1] at g1; rw [e3] at g3; rw [e4] at g4; rw [e5] at g5
    have s1 := stage_mono_same h1 g1 (List.Sublist.refl _) (fun x => x)
    have s2 := stage_mono_inactive h2 g2 s1 (by rw [ha]; rfl)
    have s3 := stage_mono_same h3 g3 s2 (fun x => x)
    have s4 := stage_mono_same h4 g4 s3 (fun x => x)
    exact (stage_mono_same h5 g5 s4 (fun x => x)).length_le
  · rw [e1] at g1; rw [e2] at g2; rw [e4] at g4; rw [e5] at g5
    have s1 := stage_mono_same h1 g1 (List.Sublist.refl _) (fun x => x)
    have s2 := stage_mono_same h2 g2 s1 (fun x => x)
    have s3 := stage_mono_inactive h3 g3 s2 (by rw [ha]; rfl)
    have s4 := stage_mono_same h4 g4 s3 (fun x => x)
    exact (stage_mono_same h5 g5 s4 (fun x => x)).length_le
  · rw [e1] at g1; rw [e2] at g2; rw [e3] at g3; rw [e5] at g5
    have s1 := stage_mono_same h1 g1 (List.Sublist.refl _) (fun x => x)
    have s2 := stage_mono_same h2 g2 s1 (fun x => x)
    have s3 := stage_mono_same h3 g3 s2 (fun x => x)
    have s4 := stage_mono_inactive h4 g4 s3 (by rw [ha]; rfl)
    exact (stage_mono_same h5 g5 s4 (fun x => x)).length_le
  · rw [e1] at g1; rw [e2] at g2; rw [e3] at g3; rw [e4] at g4
    have s1 := stage_mono_same h1 g1 (List.Sublist.refl _) (fun x => x)
    have s2 := stage_mono_same h2 g2 s1 (fun x => x)
    have s3 := stage_mono_same h3 g3 s2 (fun x => x)
    have s4 := stage_mono_same h4 g4 s3 (fun x => x)
    exact (stage_mono_inactive h5 g5 s4 (by rw [ha]; rfl)).length_le

/-- Witness for C8 at a concrete table and a pair of selections. -/
theorem claim_C8_witness :
    (Table.mk sampleHeader []).rows.length ≤
      (Table.mk sampleHeader [(0, sampleRowA), (1, sampleRowB)]).rows.length :=
  claim_C8 sampleTable emptySel noMatchSel
    ⟨sampleHeader, [(0, sampleRowA), (1, sampleRowB)]⟩ ⟨sampleHeader, []⟩
    (Or.inl (by decide)) rfl rfl

/-- C9: when at least one predicate is active and zero rows survive,
the aggregation still succeeds and returns an empty table carrying the
same five output column labels as every successful (in particular every
non-empty) aggregated result — not the absence of a table. -/
theorem claim_C9 (t : Table) (sel : Selection) (f t' : Table) (r : AggResult)
    (hact : hasActive sel = true) (hf : filterTable t sel = .ok f)
    (hempty : f.rows = []) (hagg : aggregate t' = .ok r) :
    aggregate f = .ok ⟨["Supplier / Product", "AU Support", "Impl. Time",
      "Proj. Budget", "Lic. Budget (p.a.)"], []⟩ ∧
    r.cols = ["Supplier / Product", "AU Support", "Impl. Time",
      "Proj. Budget", "Lic. Budget (p.a.)"] :=
  ⟨aggregate_empty f hempty, aggregate_cols_eq hagg⟩

/-- Witness for C9 at a concrete table and selection. -/
theorem claim_C9_witness :
    aggregate ⟨sampleHeader, []⟩ = .ok ⟨["Supplier / Product", "AU Support",
      "Impl. Time", "Proj. Budget", "Lic. Budget (p.a.)"], []⟩ ∧
    sampleAgg.cols = ["Supplier / Product", "AU Support", "Impl. Time",
      "Proj. Budget", "Lic. Budget (p.a.)"] :=
  claim_C9 sampleTable noMatchSel ⟨sampleHeader, []⟩ sampleTable sampleAgg
    rfl rfl rfl rfl

/-- C4 counterexample: a grid whose single row holds both marker labels
(so a header row exists), yet `parse_pivot_rules` still fails — with a
KeyError for the missing "Modules(tags)" column, not with the
header-not-found error.  This refutes "fails if and only if no row
contains both markers". -/
theorem claim_C4_counterexample :
    bareHeaderGrid.any isHeaderRow = true ∧
    parse_pivot_rules bareHeaderGrid = .error (.keyError "Modules(tags)") ∧
    Err.keyError "Modules(tags)" ≠ Err.headerNotFound :=
  ⟨by decide, rfl, by decide⟩

/-- C4 (amended): `parse_pivot_rules` fails with the header-not-found
error exactly when no row contains both marker labels; when a marker row
exists, the chosen header row is the first such row, the data rows are
those strictly after it, and the whole run reduces to `normalizeData`
on them (no partial-success mode) — though the run may still fail with
a KeyError when a required column is missing from the header. -/
theorem claim_C4_amended (g : Grid) :
    (parse_pivot_rules g = .error .headerNotFound ↔ ∀ r ∈ g, isHeaderRow r = false) ∧
    (∀ hd rest, findHeader g = some (hd, rest) →
      isHeaderRow hd = true ∧
      (∃ pre, g = pre ++ hd :: rest ∧ ∀ r ∈ pre, isHeaderRow r = false) ∧
      parse_pivot_rules g = normalizeData (hd.map (Option.map pyStrip)) rest) := by
  constructor
  · constructor
    · intro he
      unfold parse_pivot_rules at he
      split at he
      next hfh => exact (findHeader_none_iff g).mp hfh
      next hd rest hfh => exact absurd he (normalizeData_no_header _ _)
    · intro hall
      unfold parse_pivot_rules
      split
      next => rfl
      next hd rest hfh =>
        have h2 := (findHeader_none_iff g).mpr hall
        rw [hfh] at h2
        exact nomatch h2
  · intro hd rest hfh
    refine ⟨(findHeader_some_elim g hd rest hfh).1,
      (findHeader_some_elim g hd rest hfh).2, ?_⟩
    unfold parse_pivot_rules
    rw [hfh]

/-- Witness for C4 (amended): the no-marker direction at a concrete grid. -/
theorem claim_C4_witness :
    parse_pivot_rules [[some "x", none], []] = .error .headerNotFound :=
  (claim_C4_amended [[some "x", none], []]).1.mpr (by decide)

/-- C6 counterexample: on a grid with a duplicated data row the output
index is `[0, 2]`, not the dense `0..n-1` sequence `[0, 1]` —
`reset_index` runs before `drop_duplicates`, so dropping the duplicate
leaves a gap. -/
theorem claim_C6_counterexample :
    (parse_pivot_rules dupGrid).map (fun t => t.rows.map Prod.fst) = .ok [0, 2] ∧
    ([0, 2] : List Nat) ≠ List.range 2 :=
  ⟨rfl, by decide⟩

/-- C6 (amended): the normalizer output indeed contains no two rows
equal across all columns, and its index labels are strictly increasing
(order-preserving); but because duplicate removal follows the final
re-indexing, the index is the subsequence of `0..n-1` of surviving rows
and is dense only when no duplicate was removed. -/
theorem claim_C6_amended (g : Grid) (t : Table) (h : parse_pivot_rules g = .ok t) :
    (t.rows.map Prod.snd).Nodup ∧
      List.Pairwise (fun a b => a < b) (t.rows.map Prod.fst) := by
  rcases parse_ok_elim h with ⟨hd, rest, hfh, hnd⟩
  rcases normalizeData_ok_elim hnd with ⟨filled, js, jseg, hf, hs, hg, ht⟩
  subst ht
  refine ⟨(dropDuplicates_spec _ []).2, ?_⟩
  exact List.pairwise_map.mpr
    (List.Pairwise.sublist (dropDuplicates_sublist _ _) (pairwise_fst_lt_enumFrom _ 0))

/-- Witness for C6 (amended) at a concrete grid. -/
theorem claim_C6_witness :
    (dupTable.rows.map Prod.snd).Nodup ∧
      List.Pairwise (fun a b => a < b) (dupTable.rows.map Prod.fst) :=
  claim_C6_amended dupGrid dupTable rfl

/-- C7: during normalization, each of the nine key columns is forward
filled — the column after the ffill loop equals the scan the spec gives,
replacing each missing value by the nearest preceding non-missing value
— and a value is still missing only when every value at or before it in
that column was missing. -/
theorem claim_C7 (cols : List Cell) (rows out : List (List Cell))
    (h : ffillKeys cols keyCols rows = .ok out) :
    ∀ k ∈ keyCols, ∀ j, colIdx cols k = some j → (∀ r ∈ rows, j < r.length) →
    (out.map (fun r => r.getD j none) =
      ffillColSpec none (rows.map (fun r => r.getD j none))) ∧
    (∀ i, (out.map (fun r => r.getD j none)).get? i = some none →
      ∀ m ≤ i, (rows.map (fun r => r.getD j none)).get? m = some none) := by
  intro k hk j hj hlen
  have hcol := ffillKeys_col keyCols (by decide) cols rows out h k hk j hj hlen
  refine ⟨hcol, ?_⟩
  intro i hi m hm
  rw [hcol] at hi
  exact ffillColSpec_none_prefix _ i hi m hm

/-- Witness for C7: the Segment column of a concrete two-row sheet. -/
theorem claim_C7_witness :
    [sampleRowA, gapFilledRow].map (fun r => r.getD 0 none) =
      ffillColSpec none ([sampleRowA, gapRow].map (fun r => r.getD 0 none)) :=
  (claim_C7 sampleHeader [sampleRowA, gapRow] [sampleRowA, gapFilledRow] rfl
    "Segment" (by decide) 0 rfl (by decide)).1

theorem except_bind_ok {α β : Type} (a : α) (f : α → Except Err β) :
    (Except.ok a >>= f) = f a := rfl

theorem stage_inactive (cols : List Cell) (name : String) (p : Cell → Bool)
    (rows : List (Nat × List Cell)) : stage cols false name p rows = .ok rows := rfl

/-- C3: every row of a successfully normalized table has a supplier cell
holding a stripped, non-empty string that does not contain the
grand-total marker (case-insensitively), and its segment cell does not
contain the marker either. -/
theorem claim_C3 (g : Grid) (t : Table) (js jseg : Nat)
    (h : parse_pivot_rules g = .ok t)
    (hjs : colIdx t.cols "Supplier / Product" = some js)
    (hjseg : colIdx t.cols "Segment" = some jseg) :
    ∀ ir ∈ t.rows, ∃ s s0, ir.2.getD js none = some s ∧ s = pyStrip s0 ∧ s ≠ "" ∧
      containsCI s "Grand Total" = false ∧ cellGT (ir.2.getD jseg none) = false := by
  rcases parse_ok_elim h with ⟨hd, rest, hfh, hnd⟩
  rcases normalizeData_ok_elim hnd with ⟨filled, js', jseg', hf, hs, hg, ht⟩
  subst ht
  obtain rfl : js = js' := Option.some.inj (hjs.symm.trans hs)
  obtain rfl : jseg = jseg' := Option.some.inj (hjseg.symm.trans hg)
  intro ir hir
  have hmem : ir.2 ∈ ((((filled.filter (fun r => (r.getD js none).isSome)).map
      (fun r => r.set js ((r.getD js none).map pyStrip))).filter
      (fun r => !(r.getD js none == some ""))).filter
      (fun r => !cellGT (r.getD js none))).filter
      (fun r => !cellGT (r.getD jseg none)) :=
    snd_mem_of_mem_enumFrom _ 0 ir ((dropDuplicates_sublist _ _).subset hir)
  rcases List.mem_filter.mp hmem with ⟨hm4, hp5⟩
  rcases List.mem_filter.mp hm4 with ⟨hm3, hp4⟩
  rcases List.mem_filter.mp hm3 with ⟨hm2, hp3⟩
  rcases List.mem_map.mp hm2 with ⟨r1, hr1, he2⟩
  rcases List.mem_filter.mp hr1 with ⟨_, hp1⟩
  obtain ⟨v, hv⟩ := Option.isSome_iff_exists.mp hp1
  have hlt : js < r1.length := lt_length_of_getD_some r1 js v hv
  have hset : ir.2.getD js none = some (pyStrip v) := by
    rw [← he2, getD_set_self r1 js ((r1.getD js none).map pyStrip) none hlt, hv]
    rfl
  refine ⟨pyStrip v, v, hset, rfl, ?_, ?_, ?_⟩
  · intro e
    rw [hset, e] at hp3
    simp at hp3
  · rw [hset] at hp4
    simpa [cellGT] using hp4
  · simpa using hp5

/-- Witness for C3 at a concrete grid and row. -/
theorem claim_C3_witness :
    ∃ s s0, (0, sampleRowA).2.getD 9 none = some s ∧ s = pyStrip s0 ∧ s ≠ "" ∧
      containsCI s "Grand Total" = false ∧
      cellGT ((0, sampleRowA).2.getD 0 none) = false :=
  claim_C3 sampleGrid sampleTable 9 0 rfl rfl rfl (0, sampleRowA) (by decide)

/-- C5: with zero active predicates the rendered result is the distinct
no-selection indicator — not the full table and not an aggregation. -/
theorem claim_C5 (g : Grid) (t : Table) (sel : Selection)
    (hp : parse_pivot_rules g = .ok t) (hin : hasActive sel = false) :
    render t sel = .ok .noSelection := by
  have hb : (sel.seg != "") = false ∧ (!sel.mods.isEmpty) = false ∧
      (sel.host != "") = false ∧ (sel.orient != "") = false ∧
      (sel.reg != "") = false := by
    have hh := hin
    unfold hasActive at hh
    simp only [Bool.or_eq_false_iff] at hh
    exact ⟨hh.1.1.1.1, hh.1.1.1.2, hh.1.1.2, hh.1.2, hh.2⟩
  obtain ⟨b1, b2, b3, b4, b5⟩ := hb
  have hfil : filterTable t sel = .ok t := by
    unfold filterTable
    rw [b1, b2, b3, b4, b5]
    simp only [stage_inactive, except_bind_ok]
    rfl
  rcases parse_ok_elim hp with ⟨hd, rest, hfh, hnd⟩
  rcases normalizeData_ok_elim hnd with ⟨filled, js, jseg, hff, hsup, hseg, ht⟩
  have hcols : t.cols = hd.map (Option.map pyStrip) := by rw [ht]
  obtain ⟨jau, hau⟩ := ffillKeys_ok_lookup keyCols _ rest filled hff "AU support" (by decide)
  obtain ⟨jim, him⟩ := ffillKeys_ok_lookup keyCols _ rest filled hff "Impl" (by decide)
  obtain ⟨jpr, hpr⟩ := ffillKeys_ok_lookup keyCols _ rest filled hff "Proj$" (by decide)
  obtain ⟨jli, hli⟩ := ffillKeys_ok_lookup keyCols _ rest filled hff "Lic$ (p.a.)" (by decide)
  obtain ⟨r, hagg⟩ := aggregate_ok_of_lookups t js jau jim jpr jli
    (by rw [hcols]; exact hsup) (by rw [hcols]; exact hau) (by rw [hcols]; exact him)
    (by rw [hcols]; exact hpr) (by rw [hcols]; exact hli)
  unfold render
  rw [hfil]
  rw [except_bind_ok]
  rw [hagg]
  rw [except_bind_ok]
  rw [hin]
  rfl

/-- Witness for C5 at a concrete table and the empty selection. -/
theorem claim_C5_witness : render sampleTable emptySel = .ok .noSelection :=
  claim_C5 sampleGrid sampleTable emptySel rfl rfl

theorem bool_reassoc (a b c d e : Bool) :
    ((((e && d) && c) && b) && a) = ((((a && b) && c) && d) && e) := by
  cases a <;> cases b <;> cases c <;> cases d <;> cases e <;> rfl

/-- C1: the filter engine keeps exactly the rows satisfying the
conjunction of the active predicates — exact string equality for each
active single-select attribute (Segment, Hosting, Orientation,
Regulatory focus) and, for the multi-select attribute, membership of the
single module tag of the row in the
selected set. -/
theorem claim_C1 (t : Table) (sel : Selection) (j1 j2 j3 j4 j5 : Nat)
    (hj1 : colIdx t.cols "Segment" = some j1)
    (hj2 : colIdx t.cols "Modules(tags)" = some j2)
    (hj3 : colIdx t.cols "Hosting" = some j3)
    (hj4 : colIdx t.cols "Orientation" = some j4)
    (hj5 : colIdx t.cols "Regulatory focus (typical)" = some j5) :
    filterTable t sel = .ok ⟨t.cols, t.rows.filter (rowMatches j1 j2 j3 j4 j5 sel)⟩ := by
  have b1 := stage_eq t.cols (sel.seg != "") "Segment"
    (fun c => c == some sel.seg) t.rows j1 hj1
  have b2 := stage_eq t.cols (!sel.mods.isEmpty) "Modules(tags)" (cellIn sel.mods)
    (t.rows.filter (fun r => !(sel.seg != "") || r.2.getD j1 none == some sel.seg)) j2 hj2
  have b3 := stage_eq t.cols (sel.host != "") "Hosting" (fun c => c == some sel.host)
    ((t.rows.filter (fun r => !(sel.seg != "") || r.2.getD j1 none == some sel.seg)).filter
      (fun r => !(!sel.mods.isEmpty) || cellIn sel.mods (r.2.getD j2 none))) j3 hj3
  have b4 := stage_eq t.cols (sel.orient != "") "Orientation"
    (fun c => c == some sel.orient)
    (((t.rows.filter (fun r => !(sel.seg != "") || r.2.getD j1 none == some sel.seg)).filter
      (fun r => !(!sel.mods.isEmpty) || cellIn sel.mods (r.2.getD j2 none))).filter
      (fun r => !(sel.host != "") || r.2.getD j3 none == some sel.host)) j4 hj4
  have b5 := stage_eq t.cols (sel.reg != "") "Regulatory focus (typical)"
    (fun c => c == some sel.reg)
    ((((t.rows.filter (fun r => !(sel.seg != "") || r.2.getD j1 none == some sel.seg)).filter
      (fun r => !(!sel.mods.isEmpty) || cellIn sel.mods (r.2.getD j2 none))).filter
      (fun r => !(sel.host != "") || r.2.getD j3 none == some sel.host)).filter
      (fun r => !(sel.orient != "") || r.2.getD j4 none == some sel.orient)) j5 hj5
  simp only [filterTable, b1, b2, b3, b4, b5, except_bind_ok, pure, Except.pure]
  rw [List.filter_filter, List.filter_filter, List.filter_filter, List.filter_filter]
  refine congrArg (fun l => Except.ok (Table.mk t.cols l)) (List.filter_congr ?_)
  intro r _
  simp only [rowMatches, bne, Bool.not_not]
  exact bool_reassoc _ _ _ _ _

/-- Witness for C1 at a concrete table and selection. -/
theorem claim_C1_witness :
    filterTable sampleTable segModSel =
      .ok ⟨sampleTable.cols, sampleTable.rows.filter (rowMatches 0 1 2 3 4 segModSel)⟩ :=
  claim_C1 sampleTable segModSel 0 1 2 3 4 rfl rfl rfl rfl rfl

theorem groupCells_join_spec (rows : List (Nat × List Cell)) (jsup j : Nat) (s : String) :
    ∃ L, List.Pairwise (fun u v => pyStrLt u v = true) L ∧
      (∀ v, v ∈ L ↔ ∃ x ∈ rows, x.2.getD jsup none = some s ∧ x.2.getD j none = some v) ∧
      joinVals (groupCells rows jsup s j) = String.intercalate ", " L := by
  rcases joinVals_spec (groupCells rows jsup s j) with ⟨L, hpw, hmem, heq⟩
  refine ⟨L, hpw, ?_, heq⟩
  intro v
  rw [hmem v]
  unfold groupCells
  rw [List.mem_map]
  constructor
  · rintro ⟨x, hx, he⟩
    rcases List.mem_filter.mp hx with ⟨hxr, hbeq⟩
    exact ⟨x, hxr, beq_iff_eq.mp hbeq, he⟩
  · rintro ⟨x, hxr, he1, he2⟩
    exact ⟨x, List.mem_filter.mpr ⟨hxr, beq_iff_eq.mpr he1⟩, he2⟩

theorem agg_sort_spec (l sups : List String)
    (hsups : sups = pySorted (pySetDedup [] l))
    (f : String → AggRow) (hf : ∀ s, (f s).supplier = s) (out : List AggRow)
    (hout : out = List.insertionSort
      (fun a b => pyStrLe a.supplier b.supplier = true) (sups.map f)) :
    (out.map AggRow.supplier).Nodup ∧
    List.Pairwise (fun a b => pyStrLt a b = true) (out.map AggRow.supplier) ∧
    (∀ s, s ∈ out.map AggRow.supplier ↔ s ∈ l) ∧
    (∀ a ∈ out, ∃ s ∈ sups, a = f s) := by
  have hperm0 : out.Perm (sups.map f) := by
    rw [hout]; exact List.perm_insertionSort _ _
  have hmapsup : (sups.map f).map AggRow.supplier = sups := by
    rw [List.map_map]
    have hcomp : (AggRow.supplier ∘ f) = fun s => s := funext hf
    rw [hcomp]
    simp
  have hpermsup : (out.map AggRow.supplier).Perm sups := by
    have hp := hperm0.map AggRow.supplier
    rw [hmapsup] at hp
    exact hp
  have hnodup_s : sups.Nodup := by
    rw [hsups]
    exact (pySorted_perm _).nodup_iff.mpr (pySetDedup_spec l []).2.1
  have hnodup : (out.map AggRow.supplier).Nodup := hpermsup.nodup_iff.mpr hnodup_s
  have htot : IsTotal AggRow (fun a b => pyStrLe a.supplier b.supplier = true) :=
    ⟨fun a b => pyStrLe_total _ _⟩
  have htr : IsTrans AggRow (fun a b => pyStrLe a.supplier b.supplier = true) :=
    ⟨fun _ _ _ h1 h2 => pyStrLe_trans h1 h2⟩
  have hso : List.Sorted (fun a b => pyStrLe a.supplier b.supplier = true) out := by
    rw [hout]
    exact @List.sorted_insertionSort AggRow
      (fun a b => pyStrLe a.supplier b.supplier = true) _ htot htr (sups.map f)
  have hle : List.Pairwise (fun a b => pyStrLe a b = true) (out.map AggRow.supplier) :=
    List.pairwise_map.mpr hso
  refine ⟨hnodup, pairwise_lt_of_sorted_nodup hle hnodup, ?_, ?_⟩
  · intro s
    rw [hpermsup.mem_iff, hsups, pySorted_mem]
    constructor
    · intro hm
      exact ((pySetDedup_spec l []).1 s hm).1
    · intro hm
      exact (pySetDedup_spec l []).2.2 s hm (by simp)
  · intro a ha
    rcases List.mem_map.mp (hperm0.mem_iff.mp ha) with ⟨s, hs, he⟩
    exact ⟨s, hs, he.symm⟩

/-- C2 counterexample to "non-blank": for supplier "A" with AU-support
values `""` (blank, but present) and `"x"`, the code aggregates the set
of non-missing values, so the AU-support cell is `", x"` — the blank
value is included — whereas the claimed "distinct non-blank string
values" would give just the string x. -/
theorem claim_C2_counterexample :
    aggregate blankDetailTable = .ok ⟨["Supplier / Product", "AU Support",
      "Impl. Time", "Proj. Budget", "Lic. Budget (p.a.)"],
      [⟨"A", ", x", "3m", "10k", "5k"⟩]⟩ ∧
    String.intercalate ", " ["x"] = "x" ∧ (", x" : String) ≠ "x" :=
  ⟨rfl, rfl, by decide⟩

/-- C2 (amended): for every non-empty filtered table the aggregation
emits exactly one row per distinct supplier name, sorted strictly
ascending; and each detail field is the ", "-joined, sorted list of the
distinct non-missing (present) string values of that field across the
rows of that supplier — blank strings are present values and are included. -/
theorem claim_C2_amended (t : Table) (res : AggResult) (jsup jau jim jpr jli : Nat)
    (hne : t.rows ≠ []) (hagg : aggregate t = .ok res)
    (hsup : colIdx t.cols "Supplier / Product" = some jsup)
    (hau : colIdx t.cols "AU support" = some jau)
    (him : colIdx t.cols "Impl" = some jim)
    (hpr : colIdx t.cols "Proj$" = some jpr)
    (hli : colIdx t.cols "Lic$ (p.a.)" = some jli) :
    (res.rows.map AggRow.supplier).Nodup ∧
    List.Pairwise (fun a b => pyStrLt a b = true) (res.rows.map AggRow.supplier) ∧
    (∀ s, s ∈ res.rows.map AggRow.supplier ↔
      ∃ x ∈ t.rows, x.2.getD jsup none = some s) ∧
    (∀ a ∈ res.rows,
      (∃ L, List.Pairwise (fun u v => pyStrLt u v = true) L ∧
        (∀ v, v ∈ L ↔ ∃ x ∈ t.rows, x.2.getD jsup none = some a.supplier ∧
          x.2.getD jau none = some v) ∧ a.au = String.intercalate ", " L) ∧
      (∃ L, List.Pairwise (fun u v => pyStrLt u v = true) L ∧
        (∀ v, v ∈ L ↔ ∃ x ∈ t.rows, x.2.getD jsup none = some a.supplier ∧
          x.2.getD jim none = some v) ∧ a.impl = String.intercalate ", " L) ∧
      (∃ L, List.Pairwise (fun u v => pyStrLt u v = true) L ∧
        (∀ v, v ∈ L ↔ ∃ x ∈ t.rows, x.2.getD jsup none = some a.supplier ∧
          x.2.getD jpr none = some v) ∧ a.proj = String.intercalate ", " L) ∧
      (∃ L, List.Pairwise (fun u v => pyStrLt u v = true) L ∧
        (∀ v, v ∈ L ↔ ∃ x ∈ t.rows, x.2.getD jsup none = some a.supplier ∧
          x.2.getD jli none = some v) ∧ a.lic = String.intercalate ", " L)) := by
  have hne' : ¬ t.rows.isEmpty = true := by
    intro hb
    apply hne
    cases hr : t.rows with
    | nil => rfl
    | cons x xs => rw [hr] at hb; exact nomatch hb
  rcases aggregate_nonempty_elim hagg hne' with
    ⟨jsup', jau', jim', jpr', jli', hsup', hau', him', hpr', hli', hrows⟩
  obtain rfl : jsup = jsup' := Option.some.inj (hsup.symm.trans hsup')
  obtain rfl : jau = jau' := Option.some.inj (hau.symm.trans hau')
  obtain rfl : jim = jim' := Option.some.inj (him.symm.trans him')
  obtain rfl : jpr = jpr' := Option.some.inj (hpr.symm.trans hpr')
  obtain rfl : jli = jli' := Option.some.inj (hli.symm.trans hli')
  obtain ⟨hnd, hpw, hmem, hshape⟩ := agg_sort_spec
    (t.rows.filterMap (fun x => x.2.getD jsup none)) _ rfl
    (fun s => AggRow.mk s
      (joinVals (groupCells t.rows jsup s jau))
      (joinVals (groupCells t.rows jsup s jim))
      (joinVals (groupCells t.rows jsup s jpr))
      (joinVals (groupCells t.rows jsup s jli)))
    (fun _ => rfl) res.rows hrows
  refine ⟨hnd, hpw, ?_, ?_⟩
  · intro s
    rw [hmem s]
    exact List.mem_filterMap
  · intro a ha
    rcases hshape a ha with ⟨s, _, hae⟩
    subst hae
    exact ⟨groupCells_join_spec t.rows jsup jau s,
      groupCells_join_spec t.rows jsup jim s,
      groupCells_join_spec t.rows jsup jpr s,
      groupCells_join_spec t.rows jsup jli s⟩

/-- Witness for C2 (amended) at a concrete table. -/
theorem claim_C2_witness :
    (sampleAgg.rows.map AggRow.supplier).Nodup ∧
    List.Pairwise (fun a b => pyStrLt a b = true) (sampleAgg.rows.map AggRow.supplier) := by
  have hc := claim_C2_amended sampleTable sampleAgg 9 5 6 7 8
    (by decide) rfl rfl rfl rfl rfl rfl
  exact ⟨hc.1, hc.2.1⟩
